import Mathlib

/-!
Verification development for the ingestion-and-retrieval core of the
chat-with-repo codebase (src/ingest.py, src/chat.py, src/smart_chunker.py,
src/backend/app/main.py).

The Python code is shallowly embedded: pure computations become Lean
functions, the file system is passed explicitly as a value, and external
services (the OpenAI embedding service, the tiktoken tokenizer) are
parameters of the functions that call them.  Floating point vectors are
modelled exactly, over `ℤ`.
-/

set_option maxRecDepth 1000000

/-- Model of the Python `str.split('\n')` method call of the sources: split
on every newline character, keeping empty segments. -/
def pySplitLines (s : String) : List String :=
  (s.toList.splitOn '\n').map String.mk

/-- Model of the Python `str.strip()` method: remove leading and trailing
whitespace characters. -/
def pyStrip (s : String) : String :=
  String.mk
    (((s.toList.dropWhile Char.isWhitespace).reverse.dropWhile
      Char.isWhitespace).reverse)

/-- Model of the Python `str.startswith(m)` method. -/
def pyStartsWith (s m : String) : Bool :=
  m.toList.isPrefixOf s.toList

/-- Model of the Python `str.endswith(m)` method. -/
def pyEndsWith (s m : String) : Bool :=
  m.toList.isSuffixOf s.toList

/-- Model of the Python `len(s.encode('utf-8'))` expression: the UTF-8 byte
length of a string. -/
def pyUtf8Len (s : String) : Nat := (s.toList.map Char.utf8Size).sum

/-- Model of the Python `s[:-n]` slice: drop the trailing `n` characters. -/
def pyDropRight (s : String) (n : Nat) : String :=
  String.mk (s.toList.take (s.toList.length - n))

/-- An embedding vector: a float array in the source, modelled over `ℤ` (an
exact scalar model; the embedding only uses subtraction, multiplication,
addition and order comparisons of the scalars). -/
abbrev Vec := List ℤ

/-- Squared L2 distance between two vectors. -/
def sqL2 (a b : Vec) : ℤ := ((a.zip b).map (fun p => (p.1 - p.2) ^ 2)).sum

/-- Model of a `faiss.IndexFlatL2` object: its dimension and the vectors it
holds, in insertion order. -/
structure FlatL2 where
  d : Nat
  vecs : List Vec
deriving DecidableEq, Repr

namespace FlatL2

/-- `index.ntotal` in faiss: the number of stored vectors. -/
def ntotal (ix : FlatL2) : Nat := ix.vecs.length

/-- `index.add(v)`: appends a vector, positions are assigned in insertion
order. -/
def add (ix : FlatL2) (v : Vec) : FlatL2 := { ix with vecs := ix.vecs ++ [v] }

/-- Ascending comparison of (position, distance) pairs by distance. -/
def distLE (a b : Nat × ℤ) : Prop := a.2 ≤ b.2

instance : DecidableRel distLE := fun a b => inferInstanceAs (Decidable (a.2 ≤ b.2))

instance : IsTotal (Nat × ℤ) distLE := ⟨fun a b => le_total a.2 b.2⟩

instance : IsTrans (Nat × ℤ) distLE := ⟨fun _ _ _ h h' => le_trans h h'⟩

/-- Modelled from the spec: `faiss.IndexFlatL2.search` is an external library
call; per spec section 4.3 it returns the `k` nearest stored vectors as
(position, squared-L2-distance) pairs sorted ascending by distance, and
returns fewer than `k` results when fewer than `k` vectors are stored. -/
def search (ix : FlatL2) (q : Vec) (k : Nat) : List (Nat × ℤ) :=
  (List.insertionSort distLE (ix.vecs.enum.map (fun p => (p.1, sqL2 q p.2)))).take k

end FlatL2

/-- One entry of the parallel metadata list, as built by
`CodeIngester.process_directory` (src/ingest.py lines 306-313). -/
structure ChunkMeta where
  file : String
  content : String
  start_line : Nat
  end_line : Nat
  language : String
  size : Nat
deriving DecidableEq, Repr

/-- The in-memory state of a `CodeIngester` object (src/ingest.py lines
33-40). -/
structure IngesterState where
  chunk_size : Nat
  dimension : Nat
  index : FlatL2
  metadata : List ChunkMeta
  current_index_name : Option String
deriving DecidableEq, Repr

namespace CodeIngester

/-- `CodeIngester()` with the default arguments of `__init__`. -/
def init : IngesterState :=
  { chunk_size := 1500
    dimension := 1536
    index := { d := 1536, vecs := [] }
    metadata := []
    current_index_name := none }

end CodeIngester

/-- A source file as seen by the directory walk of
`CodeIngester.process_directory`: its base name, the path relative to the
ingested root, its on-disk byte size, whether it decodes as UTF-8
(`read_ok = false` models a `UnicodeDecodeError`), and its decoded text. -/
structure SrcFile where
  name : String
  rel_path : String
  byte_size : Nat
  read_ok : Bool
  raw : String
deriving DecidableEq, Repr

/-- The extension filter of src/ingest.py line 254:
`file.endswith(('.py', '.js', '.ts', '.jsx', '.tsx'))`. -/
def sourceExt (f : String) : Bool :=
  pyEndsWith f ".py" || pyEndsWith f ".js" || pyEndsWith f ".ts" ||
    pyEndsWith f ".jsx" || pyEndsWith f ".tsx"

/-- Modelled from the library call `os.path.splitext(s)[1]`: the extension of
a file name (from the last dot on), where a leading run of dots does not
start an extension. -/
def splitext_ext (s : String) : String :=
  let cs := s.toList
  let rest := cs.drop ((cs.takeWhile (· = '.')).length)
  if rest.contains '.' then
    String.mk ('.' :: (rest.reverse.takeWhile (· ≠ '.')).reverse)
  else ""

/-- Accumulator of the walk in `CodeIngester.process_directory`: the metadata
list and FAISS index being built and the progress counters of lines 243-245. -/
structure PDAcc where
  metadata : List ChunkMeta
  index : FlatL2
  total_chunks : Nat
  files_processed : Nat
  files_with_content : Nat
deriving DecidableEq, Repr

namespace CodeIngester

/-- The per-line chunking loop of `process_directory` (src/ingest.py lines
284-326).  `embed` models `get_embedding`: `none` when the call raises (the
`except` on line 324 then skips the chunk without resetting the buffer), and
the returned vector is length-checked against the index dimension.  Lines are
1-indexed by `i`; `n` is the total number of lines of the file. -/
def chunkLoop (embed : String → Option Vec) (dim chunk_sz : Nat)
    (rel_path lang : String) (n : Nat) :
    List String → Nat → List String → Nat → PDAcc → PDAcc
  | [], _, _, _, acc => acc
  | line :: rest, i, chunk0, current_chunk_start, acc =>
    let current_chunk := chunk0 ++ [line]
    let chunk_text := String.intercalate "\n" current_chunk
    if chunk_sz ≤ pyUtf8Len chunk_text ∨ i = n then
      if pyStrip chunk_text = "" then
        chunkLoop embed dim chunk_sz rel_path lang n rest (i + 1)
          current_chunk current_chunk_start acc
      else
        match embed chunk_text with
        | none =>
          chunkLoop embed dim chunk_sz rel_path lang n rest (i + 1)
            current_chunk current_chunk_start acc
        | some v =>
          if v.length ≠ dim then
            chunkLoop embed dim chunk_sz rel_path lang n rest (i + 1)
              current_chunk current_chunk_start acc
          else
            let meta : ChunkMeta :=
              { file := rel_path
                content := chunk_text
                start_line := current_chunk_start
                end_line := i
                language := lang
                size := chunk_text.length }
            chunkLoop embed dim chunk_sz rel_path lang n rest (i + 1) [] (i + 1)
              { acc with
                  metadata := acc.metadata ++ [meta]
                  index := acc.index.add v
                  total_chunks := acc.total_chunks + 1 }
    else
      chunkLoop embed dim chunk_sz rel_path lang n rest (i + 1)
        current_chunk current_chunk_start acc

/-- Processing of one walked file inside `process_directory` (src/ingest.py
lines 253-333): the extension filter, the empty-file and binary-file skips,
the `.strip()` of the content, the inline chunking loop, and the
`files_with_content` bookkeeping of line 328. -/
def processFileEntry (embed : String → Option Vec) (chunk_sz dim : Nat)
    (acc : PDAcc) (f : SrcFile) : PDAcc :=
  if ¬ sourceExt f.name then acc
  else
    let acc := { acc with files_processed := acc.files_processed + 1 }
    if f.byte_size = 0 then acc
    else if ¬ f.read_ok then acc
    else
      let content := pyStrip f.raw
      if content = "" then acc
      else
        let lines := pySplitLines content
        let lang := (splitext_ext f.name).drop 1
        let acc' := chunkLoop embed dim chunk_sz f.rel_path lang lines.length
          lines 1 [] 1 acc
        if acc'.files_processed < acc'.total_chunks then
          { acc' with files_with_content := acc'.files_with_content + 1 }
        else acc'

/-- `CodeIngester.process_directory` (src/ingest.py lines 227-358).  The
directory is `none` when `os.path.exists` fails, otherwise the list of files
produced by the `os.walk` traversal after the hidden/excluded-directory
filtering of lines 250-251.  The in-memory state is reset before the
existence check, exactly as in the source (lines 232-240). -/
def process_directory (embed : String → Option Vec) (st : IngesterState)
    (dir : Option (List SrcFile)) : IngesterState × Bool :=
  let st := { st with metadata := [], index := { d := st.dimension, vecs := [] } }
  match dir with
  | none => (st, false)
  | some files =>
    let chunk_sz := min st.chunk_size 8000
    let acc := files.foldl (processFileEntry embed chunk_sz st.dimension)
      { metadata := [], index := { d := st.dimension, vecs := [] },
        total_chunks := 0, files_processed := 0, files_with_content := 0 }
    let st := { st with metadata := acc.metadata, index := acc.index }
    if acc.total_chunks = 0 ∨ acc.metadata.length = 0 ∨ acc.index.ntotal = 0 then
      (st, false)
    else if acc.metadata.length ≠ acc.index.ntotal then (st, false)
    else (st, true)

end CodeIngester

/-- The on-disk contents of one `backend/indices/<name>/` directory: the
parsed `metadata.json` if that file exists, the deserialized `index.faiss` if
that file exists, and whether an `embeddings.npy` file exists. -/
structure UnitDir where
  metadata_json : Option (List ChunkMeta)
  index_faiss : Option FlatL2
  has_embeddings_npy : Bool
deriving DecidableEq, Repr

/-- One entry of the `backend/indices` directory: either a per-index
subdirectory or a plain file (the legacy flat layout). -/
inductive StoreItem where
  | dir (name : String) (u : UnitDir)
  | flat (name : String)
deriving DecidableEq, Repr

/-- The `backend/indices` directory: `none` when it does not exist. -/
abbrev Store := Option (List StoreItem)

/-- Whether `os.path.exists(indices_dir/<name>)` holds: a subdirectory or a
plain file with that exact name. -/
def index_dir_exists (items : List StoreItem) (name : String) : Bool :=
  items.any fun it =>
    match it with
    | .dir n _ => n = name
    | .flat n => n = name

/-- The subdirectory named `name`, if one exists. -/
def find_unit_dir (items : List StoreItem) (name : String) : Option UnitDir :=
  items.findSome? fun it =>
    match it with
    | .dir n u => if n = name then some u else none
    | .flat _ => none

namespace CodeIngester

/-- `CodeIngester.list_available_indices` (src/ingest.py lines 50-80).  A
subdirectory is listed when it contains both `metadata.json` and
`embeddings.npy` (lines 63-66); a plain file ending in `.index` is listed
under its stem as a legacy index (lines 69-73). -/
def list_available_indices (store : Store) : List String :=
  match store with
  | none => []
  | some items =>
    items.foldl
      (fun indices item =>
        match item with
        | .dir nm u =>
          if u.metadata_json.isSome && u.has_embeddings_npy then indices ++ [nm]
          else indices
        | .flat nm =>
          if pyEndsWith nm ".index" then
            let legacy := pyDropRight nm 6
            if legacy ∉ indices then indices ++ [legacy] else indices
          else indices)
      []

/-- `CodeIngester.save_state` (src/ingest.py lines 82-135): refuses an empty
or mismatched state, removes any existing directory of the same name
(`shutil.rmtree`, which raises when the name denotes a plain file — the
exception is caught and reported as failure), then writes `metadata.json`
and `index.faiss`.  `os.makedirs(indices_dir, exist_ok=True)` materializes a
missing indices directory before the overwrite. -/
def save_state (st : IngesterState) (store : Store) (name : String) :
    IngesterState × Store × Bool :=
  if st.metadata.length = 0 ∨ st.index.ntotal = 0 then (st, store, false)
  else if st.metadata.length ≠ st.index.ntotal then (st, store, false)
  else
    let items := store.getD []
    if items.any (fun it => match it with | .flat n => n = name | .dir _ _ => false) then
      (st, some items, false)
    else
      let items := items.filter fun it =>
        match it with
        | .dir n _ => n ≠ name
        | .flat _ => true
      ({ st with current_index_name := some name },
        some (items ++ [.dir name
          { metadata_json := some st.metadata
            index_faiss := some st.index
            has_embeddings_npy := false }]),
        true)

/-- `CodeIngester.load_state` (src/ingest.py lines 137-178): fails when the
unit directory, its `metadata.json`, or its `index.faiss` is missing;
otherwise installs the persisted metadata and index in memory and reports
success.  The source performs no metadata/vector count comparison.  Note
that `self.metadata` is assigned before the index file check, exactly as in
the source (lines 154-170). -/
def load_state (st : IngesterState) (store : Store) (name : String) :
    IngesterState × Bool :=
  let items := store.getD []
  if ¬ index_dir_exists items name then (st, false)
  else
    match find_unit_dir items name with
    | none => (st, false)
    | some u =>
      match u.metadata_json with
      | none => (st, false)
      | some md =>
        let st := { st with metadata := md }
        match u.index_faiss with
        | none => (st, false)
        | some ix => ({ st with index := ix }, true)

end CodeIngester

/-- One element of the result list of `CodeChat.search_similar`: a metadata
entry copy with the search distance attached (src/chat.py lines 125-126). -/
structure SearchHit where
  meta : ChunkMeta
  distance : ℤ
deriving DecidableEq, Repr

namespace CodeChat

/-- `self.max_tokens` of `CodeChat.__init__` (src/chat.py line 20). -/
def chat_max_tokens : Nat := 128000

/-- `self.max_response_tokens` of `CodeChat.__init__` (src/chat.py line 21). -/
def chat_max_response_tokens : Nat := 4096

/-- The system prompt literal of `CodeChat.search_similar` (src/chat.py
lines 101-107). -/
def system_prompt : String :=
  "You are a helpful code assistant. Analyze the code context and provide clear, detailed explanations.\nFocus on:\n1. Code structure and relationships\n2. Implementation details and patterns\n3. Key functionality and purpose\n4. Dependencies and interactions\nUse markdown formatting for code snippets and explanations."

/-- The token budget of src/chat.py line 111:
`max_tokens - system_prompt_tokens - query_tokens - max_response_tokens - 500`.
`ctok` models `self.count_tokens` (the tiktoken encoder). -/
def available_tokens (ctok : String → Nat) (query : String) : Int :=
  (chat_max_tokens : Int) - ctok system_prompt - ctok query
    - chat_max_response_tokens - 500

/-- The grouping of hits by `result.get("file", ...)` into a Python dict
(src/chat.py lines 120-134); dicts preserve insertion order, modelled as an
association list extended at the back. -/
def group_by_file (hits : List SearchHit) : List (String × List SearchHit) :=
  hits.foldl
    (fun acc r =>
      if acc.any (fun g => g.1 = r.meta.file) then
        acc.map (fun g => if g.1 = r.meta.file then (g.1, g.2 ++ [r]) else g)
      else acc ++ [(r.meta.file, [r])])
    []

/-- Ascending comparison of hits by `start_line`, the sort key of
src/chat.py line 141. -/
def slLE (a b : SearchHit) : Prop := a.meta.start_line ≤ b.meta.start_line

instance : DecidableRel slLE :=
  fun a b => inferInstanceAs (Decidable (a.meta.start_line ≤ b.meta.start_line))

instance : IsTotal SearchHit slLE :=
  ⟨fun a b => Nat.le_total a.meta.start_line b.meta.start_line⟩

instance : IsTrans SearchHit slLE := ⟨fun _ _ _ h h' => Nat.le_trans h h'⟩

/-- The budgeted inner loop of src/chat.py lines 144-153: chunks of one file
group are added while the running total stays within the budget; the first
chunk that would overflow stops the loop for this file group (`break`). -/
def add_chunks_upto (ctok : String → Nat) (avail : Int) :
    List SearchHit → List SearchHit × Int → List SearchHit × Int
  | [], acc => acc
  | c :: cs, (res, tot) =>
    if tot + (ctok c.meta.content : Int) ≤ avail then
      add_chunks_upto ctok avail cs (res ++ [c], tot + (ctok c.meta.content : Int))
    else (res, tot)

/-- `CodeChat.search_similar` (src/chat.py lines 79-159).  `ctok` models
`self.count_tokens`, `embed` models `self.ingester.get_embedding` (`none`
when the embedding call raises, which propagates out of `search_similar`,
modelled by a `none` first component).  The second component counts the
query-embedding calls issued. -/
def search_similar (ctok : String → Nat) (embed : String → Option Vec)
    (st : IngesterState) (query : String) (initial_k : Nat) :
    Option (List SearchHit) × Nat :=
  if st.index.ntotal = 0 then (some [], 0)
  else
    match embed query with
    | none => (none, 1)
    | some qv =>
      let k := min initial_k st.index.ntotal
      let di := st.index.search qv k
      let avail := available_tokens ctok query
      let hits := di.filterMap fun p =>
        (st.metadata.get? p.1).map fun m => { meta := m, distance := p.2 }
      let file_chunks := group_by_file hits
      let res := file_chunks.foldl
        (fun acc g => add_chunks_upto ctok avail (List.insertionSort slLE g.2) acc)
        ([], 0)
      (some res.1, 1)

/-- `CodeChat.create_new_index` (src/chat.py lines 48-77): builds a fresh
`CodeIngester`, runs `process_directory` (whose return value the source
ignores), then returns the outcome of `save_state`. -/
def create_new_index (embed : String → Option Vec) (store : Store)
    (dir : Option (List SrcFile)) (name : String) :
    IngesterState × Store × Bool :=
  let ing := CodeIngester.init
  let pd := CodeIngester.process_directory embed ing dir
  CodeIngester.save_state pd.1 store name

end CodeChat

namespace Backend

/-- The `/api/indices/create` endpoint (src/backend/app/main.py lines
235-279): rejects when the repository path does not exist
(`dir = none`) or when the derived name is already listed by
`list_available_indices`, and otherwise reports the outcome of
`CodeChat.create_new_index`.  Progress broadcasting is omitted. -/
def create_index (embed : String → Option Vec) (store : Store)
    (dir : Option (List SrcFile)) (name : String) : Store × Bool :=
  match dir with
  | none => (store, false)
  | some files =>
    if name ∈ CodeIngester.list_available_indices store then (store, false)
    else
      let r := CodeChat.create_new_index embed store (some files) name
      (r.2.1, r.2.2)

end Backend

/-- A chunk record emitted by `SmartChunker._find_chunk_boundaries`
(src/smart_chunker.py lines 36-44). -/
structure SChunk where
  content : String
  type : String
  tokens : Nat
deriving DecidableEq, Repr

namespace SmartChunker

/-- The `language_markers` table of `SmartChunker.__init__`
(src/smart_chunker.py lines 16-22); `.get(file_ext, [])` yields `[]` for any
other extension. -/
def language_markers (ext : String) : List String :=
  if ext = ".py" then ["def ", "class ", "@", "import ", "from "]
  else if ext = ".js" then ["function ", "class ", "import ", "export ", "const ", "let "]
  else if ext = ".ts" then ["function ", "class ", "interface ", "type ", "import ", "export "]
  else if ext = ".jsx" then ["function ", "class ", "import ", "export ", "const ", "let "]
  else if ext = ".tsx" then ["function ", "class ", "interface ", "type ", "import ", "export "]
  else []

/-- Membership test of `file_ext not in self.language_markers`
(src/smart_chunker.py line 77). -/
def supported_ext (ext : String) : Bool :=
  ext = ".py" || ext = ".js" || ext = ".ts" || ext = ".jsx" || ext = ".tsx"

/-- The boundary test of src/smart_chunker.py lines 47-48:
`line.strip()` starts with one of the extension's markers. -/
def is_boundary_line (markers : List String) (line : String) : Bool :=
  markers.any fun m => pyStartsWith (pyStrip line) m

/-- The `create_chunk` helper of src/smart_chunker.py lines 36-44; `tok`
models `self._count_tokens` (the tiktoken encoder). -/
def create_chunk (tok : String → Nat) (lines_list : List String) : Option SChunk :=
  if lines_list = [] then none
  else
    some
      { content := String.intercalate "\n" lines_list
        type := "code"
        tokens := tok (String.intercalate "\n" lines_list) }

/-- The chunk record built from one buffer of lines (the `some` case of
`create_chunk` for a non-empty buffer). -/
def mkChunk (tok : String → Nat) (p : List String) : SChunk :=
  { content := String.intercalate "\n" p
    type := "code"
    tokens := tok (String.intercalate "\n" p) }

/-- The line loop of `SmartChunker._find_chunk_boundaries`
(src/smart_chunker.py lines 46-69), with the emitted chunks, the current
buffer and its running token count as explicit accumulators. -/
def fcb_loop (tok : String → Nat) (markers : List String) (max_tokens : Nat) :
    List String → List SChunk → List String → Nat → List SChunk
  | [], chunks, current_chunk, _ =>
    (match create_chunk tok current_chunk with
     | some c => chunks ++ [c]
     | none => chunks)
  | line :: rest, chunks, current_chunk, current_tokens =>
    let line_tokens := tok (line ++ "\n")
    if (is_boundary_line markers line && !current_chunk.isEmpty)
        || (decide (max_tokens < current_tokens + line_tokens)
            && !current_chunk.isEmpty) then
      let chunks' :=
        match create_chunk tok current_chunk with
        | some c => chunks ++ [c]
        | none => chunks
      fcb_loop tok markers max_tokens rest chunks' [line] line_tokens
    else
      fcb_loop tok markers max_tokens rest chunks
        (current_chunk ++ [line]) (current_tokens + line_tokens)

/-- `SmartChunker._find_chunk_boundaries` (src/smart_chunker.py lines
28-71).  The split of the content on newline characters
(`content.split('\n')`) is modelled by `String.split` on `'\n'`. -/
def find_chunk_boundaries (tok : String → Nat) (max_tokens : Nat)
    (content : String) (file_ext : String) : List SChunk :=
  fcb_loop tok (language_markers file_ext) max_tokens
    (pySplitLines content) [] [] 0

/-- The partition of the input lines induced by the loop of
`_find_chunk_boundaries`: the same recursion as `fcb_loop`, recording each
emitted buffer as its list of lines instead of a joined chunk record. -/
def fcb_parts (tok : String → Nat) (markers : List String) (max_tokens : Nat) :
    List String → List String → Nat → List (List String)
  | [], current_chunk, _ => if current_chunk = [] then [] else [current_chunk]
  | line :: rest, current_chunk, current_tokens =>
    let line_tokens := tok (line ++ "\n")
    if (is_boundary_line markers line && !current_chunk.isEmpty)
        || (decide (max_tokens < current_tokens + line_tokens)
            && !current_chunk.isEmpty) then
      current_chunk :: fcb_parts tok markers max_tokens rest [line] line_tokens
    else
      fcb_parts tok markers max_tokens rest
        (current_chunk ++ [line]) (current_tokens + line_tokens)

/-- The per-line token account of a buffer, as accumulated by the loop of
`_find_chunk_boundaries`: each line is counted as `tok(line + '\n')`
(src/smart_chunker.py line 49). -/
def lineTokSum (tok : String → Nat) (p : List String) : Nat :=
  (p.map fun l => tok (l ++ "\n")).sum

end SmartChunker

/-- The total token account of a retrieval result, mirroring the running
`total_tokens` of src/chat.py lines 100 and 147-149. -/
def sumTokens (ctok : String → Nat) (res : List SearchHit) : Int :=
  (res.map fun c => (ctok c.meta.content : Int)).sum

/-- Concrete embedding oracle used by witnesses: every text embeds to the
zero vector of the ingester dimension 1536. -/
def witEmbed1536 : String → Option Vec := fun _ => some (List.replicate 1536 0)

/-- A small metadata entry used by several concrete store scenarios. -/
def witMeta : ChunkMeta :=
  { file := "f.py", content := "c1", start_line := 1, end_line := 1,
    language := "py", size := 2 }

/-- A persisted unit with 5 metadata entries. -/
def C1md5 : List ChunkMeta := [witMeta, witMeta, witMeta, witMeta, witMeta]

/-- A persisted FAISS index holding 4 vectors. -/
def C1ix4 : FlatL2 := ⟨1536, [[0], [1], [2], [3]]⟩

/-- A valid one-chunk in-memory state, as left by a successful ingestion. -/
def C3st : IngesterState :=
  { chunk_size := 1500, dimension := 1536, index := ⟨1536, [[0]]⟩,
    metadata := [witMeta], current_index_name := none }

/-- The store of a previously saved unit named "repo" (both save-written
artifacts present, no `embeddings.npy`). -/
def C6store : Store := some [.dir "repo" ⟨some C1md5, some C1ix4, false⟩]

/-- A one-file directory to ingest. -/
def C6files : List SrcFile := [⟨"a.py", "a.py", 1, true, "x"⟩]

/-- Token oracle for the concrete budget scenarios: the system prompt counts
123304 tokens, the query "q" counts 0, chunk content "a2" counts 80, chunk
content "b1" counts 10 and any other text counts 40; the available budget of
src/chat.py line 111 is then exactly 128000 - 123304 - 0 - 4096 - 500 =
100. -/
def C4ctok : String → Nat := fun s =>
  if s = CodeChat.system_prompt then 123304
  else if s = "q" then 0
  else if s = "a2" then 80
  else if s = "b1" then 10
  else 40

/-- Embedding oracle for the search scenarios: everything embeds to `[0]`. -/
def C4embed : String → Option Vec := fun _ => some [0]

/-- First of three 40-token chunks of file f.py. -/
def C4m0 : ChunkMeta := ⟨"f.py", "c1", 1, 1, "py", 2⟩

/-- Second of three 40-token chunks of file f.py. -/
def C4m1 : ChunkMeta := ⟨"f.py", "c2", 2, 2, "py", 2⟩

/-- Third of three 40-token chunks of file f.py. -/
def C4m2 : ChunkMeta := ⟨"f.py", "c3", 3, 3, "py", 2⟩

/-- An ingester state holding three 40-token chunks of one file. -/
def C4st : IngesterState :=
  ⟨1500, 1536, ⟨1536, [[0], [1], [2]]⟩, [C4m0, C4m1, C4m2], none⟩

/-- A 40-token chunk of file a.py. -/
def C4a1 : ChunkMeta := ⟨"a.py", "c1", 1, 1, "py", 2⟩

/-- An 80-token chunk of file a.py (overflows after C4a1). -/
def C4a2 : ChunkMeta := ⟨"a.py", "a2", 2, 2, "py", 2⟩

/-- A 10-token chunk of file b.py. -/
def C4b1 : ChunkMeta := ⟨"b.py", "b1", 1, 1, "py", 2⟩

/-- An ingester state with two file groups: a.py overflows at its second
chunk, b.py still fits. -/
def C4st2 : IngesterState :=
  ⟨1500, 1536, ⟨1536, [[0], [1], [2]]⟩, [C4a1, C4a2, C4b1], none⟩

/-- The single metadata entry of the mismatched retrieval scenario. -/
def C10meta : ChunkMeta := ⟨"f.py", "c1", 1, 1, "py", 2⟩

/-- A mismatched loaded state: the index holds 3 vectors but the metadata
list has only 1 entry, so search hits at positions 1 and 2 are out of
range. -/
def C10st : IngesterState :=
  ⟨1500, 1536, ⟨1536, [[5], [1], [2]]⟩, [C10meta], none⟩

/-- Embedding oracle of the mismatched retrieval scenario. -/
def C10embed : String → Option Vec := fun _ => some [0]

/- Helper lemmas. -/

theorem find_unit_dir_exists {items : List StoreItem} {name : String}
    {u : UnitDir} (h : find_unit_dir items name = some u) :
    index_dir_exists items name = true := by
  induction items with
  | nil => simp [find_unit_dir] at h
  | cons it rest ih =>
    cases it with
    | dir n v =>
      by_cases hn : n = name
      · simp [index_dir_exists, hn]
      · rw [find_unit_dir, List.findSome?_cons] at h
        simp only [hn, if_false] at h
        have hrest := ih (by simpa [find_unit_dir] using h)
        simp only [index_dir_exists, List.any_cons] at hrest ⊢
        simp [hn, hrest]
    | flat n =>
      rw [find_unit_dir, List.findSome?_cons] at h
      simp only [] at h
      have hrest := ih (by simpa [find_unit_dir] using h)
      simp only [index_dir_exists, List.any_cons] at hrest ⊢
      simp [hrest]

/- Claim theorems. -/

/-- C2: every run of `CodeIngester.process_directory` that reports success
leaves the length of the in-memory metadata list equal to the number of
vectors in the FAISS index, for any directory contents (0, 1 or N matching
files) and any pattern of skipped files or failed chunk embeddings. -/
theorem C2_ingest_invariant (embed : String → Option Vec) (st : IngesterState)
    (dir : Option (List SrcFile))
    (h : (CodeIngester.process_directory embed st dir).2 = true) :
    (CodeIngester.process_directory embed st dir).1.metadata.length
      = (CodeIngester.process_directory embed st dir).1.index.ntotal := by
  cases dir with
  | none => simp [CodeIngester.process_directory] at h
  | some files =>
    revert h
    unfold CodeIngester.process_directory
    simp only []
    split
    · intro h; exact absurd h (by simp)
    · split
      · intro h; exact absurd h (by simp)
      · rename_i hne
        intro _
        simpa [FlatL2.ntotal] using Decidable.not_not.mp hne

/-- C2 witness: a concrete mixed run (one successfully embedded file, one
file whose chunk embedding fails) reports success with matching counts. -/
theorem C2_ingest_invariant_witness :
    (CodeIngester.process_directory
        (fun s => if s = "bad" then none else some [0, 0])
        { chunk_size := 1500, dimension := 2, index := ⟨2, []⟩,
          metadata := [], current_index_name := none }
        (some [⟨"a.py", "a.py", 1, true, "x"⟩, ⟨"b.py", "b.py", 3, true, "bad"⟩])).2
      = true ∧
    (CodeIngester.process_directory
        (fun s => if s = "bad" then none else some [0, 0])
        { chunk_size := 1500, dimension := 2, index := ⟨2, []⟩,
          metadata := [], current_index_name := none }
        (some [⟨"a.py", "a.py", 1, true, "x"⟩, ⟨"b.py", "b.py", 3, true, "bad"⟩])).1.metadata.length
      = (CodeIngester.process_directory
        (fun s => if s = "bad" then none else some [0, 0])
        { chunk_size := 1500, dimension := 2, index := ⟨2, []⟩,
          metadata := [], current_index_name := none }
        (some [⟨"a.py", "a.py", 1, true, "x"⟩, ⟨"b.py", "b.py", 3, true, "bad"⟩])).1.index.ntotal :=
  ⟨by decide,
   C2_ingest_invariant _ _ _ (by decide)⟩

/-- C8: retrieval on an index containing zero vectors returns an empty list
and issues no query-embedding call. -/
theorem C8_empty_index_guard (ctok : String → Nat) (embed : String → Option Vec)
    (st : IngesterState) (query : String) (initial_k : Nat)
    (h : st.index.ntotal = 0) :
    CodeChat.search_similar ctok embed st query initial_k = (some [], 0) := by
  unfold CodeChat.search_similar
  simp [h]

/-- C8 witness: a freshly constructed ingester state has an empty index and
retrieval on it returns no chunks with zero embedding calls. -/
theorem C8_empty_index_guard_witness :
    CodeIngester.init.index.ntotal = 0 ∧
    CodeChat.search_similar (fun _ => 40) witEmbed1536 CodeIngester.init "q" 30
      = (some [], 0) :=
  ⟨by decide, C8_empty_index_guard _ _ _ _ _ (by decide)⟩

/-- C1 counterexample: a persisted unit with 5 metadata entries and a vector
index of size 4 (5 ≠ 4) nevertheless loads with success — `load_state`
reports `True` for the mismatched unit, contradicting the claim that such a
load does not report success. -/
theorem C1_load_mismatch_counterexample :
    C1md5.length = 5 ∧ C1ix4.ntotal = 4 ∧
    (CodeIngester.load_state CodeIngester.init
        (some [.dir "u" ⟨some C1md5, some C1ix4, false⟩]) "u").2 = true := by
  refine ⟨by decide, by decide, by decide⟩

/-- C1 (amended): `load_state` performs no metadata/vector count comparison —
it reports success whenever the unit directory and both of its artifact
files exist, even when the metadata length differs from the vector count,
and it installs the mismatched pair as the queryable in-memory state. -/
theorem C1_load_no_count_check (st : IngesterState) (items : List StoreItem)
    (name : String) (u : UnitDir) (md : List ChunkMeta) (ix : FlatL2)
    (hfind : find_unit_dir items name = some u)
    (hmd : u.metadata_json = some md) (hix : u.index_faiss = some ix) :
    CodeIngester.load_state st (some items) name
      = ({ st with metadata := md, index := ix }, true) := by
  have hex := find_unit_dir_exists hfind
  unfold CodeIngester.load_state
  simp [hex, hfind, hmd, hix]

/-- C1 amended witness: the 5-metadata / 4-vector unit loads with success and
exposes exactly the mismatched metadata and index. -/
theorem C1_load_no_count_check_witness :
    find_unit_dir [.dir "u" ⟨some C1md5, some C1ix4, false⟩] "u"
      = some ⟨some C1md5, some C1ix4, false⟩ ∧
    CodeIngester.load_state CodeIngester.init
        (some [.dir "u" ⟨some C1md5, some C1ix4, false⟩]) "u"
      = ({ CodeIngester.init with metadata := C1md5, index := C1ix4 }, true) :=
  ⟨by decide,
   C1_load_no_count_check CodeIngester.init _ "u"
     ⟨some C1md5, some C1ix4, false⟩ C1md5 C1ix4
     (by decide) (by decide) (by decide)⟩

/-- C3: the listing bug, evaluated.  A unit exactly as written by a
successful `save_state` (a directory holding `metadata.json` and
`index.faiss`) is not listed at all, because `list_available_indices`
requires an `embeddings.npy` file that `save_state` never writes; while a
directory holding `metadata.json` and `embeddings.npy` but no `index.faiss`
(no serialized vector index) is listed as available. -/
theorem C3_list_artifacts_bug :
    (CodeIngester.save_state C3st (some []) "a").2.2 = true ∧
    CodeIngester.list_available_indices
        (CodeIngester.save_state C3st (some []) "a").2.1 = [] ∧
    CodeIngester.list_available_indices
        (some [.dir "b"
          { metadata_json := some [], index_faiss := none,
            has_embeddings_npy := true }]) = ["b"] := by
  refine ⟨by decide, by decide, by decide⟩

/-- C6: the create-index bug, evaluated.  The `/api/indices/create` endpoint
intends to reject duplicate names (src/backend/app/main.py line 260), but its
existence check goes through `list_available_indices`, which never lists
units written by `save_state`; so creating an index under a name whose unit
already exists on disk succeeds and overwrites the unit instead of being
rejected.  The companion conjuncts show the directory-missing half of the
claim does hold: a missing path is rejected by the endpoint, and
`create_new_index` on a missing path reports failure without touching the
store. -/
theorem C6_create_overwrites_existing :
    (Backend.create_index witEmbed1536 C6store (some C6files) "repo").2 = true ∧
    index_dir_exists (C6store.getD []) "repo" = true ∧
    Backend.create_index witEmbed1536 C6store none "new" = (C6store, false) ∧
    (∀ (embed : String → Option Vec) (store : Store) (name : String),
      (CodeChat.create_new_index embed store none name).2 = (store, false)) := by
  refine ⟨by decide, by decide, by decide, ?_⟩
  intro embed store name
  unfold CodeChat.create_new_index CodeIngester.process_directory
    CodeIngester.save_state
  simp [CodeIngester.init]

/-- C7: k clamping.  For every index and requested `k`, search yields
`min k count` results — clamping `k` to the vector count (as
`search_similar` does at src/chat.py line 92) does not change the result —
sorted ascending by L2 distance; concretely, an index holding 3 vectors
searched with k = 30 returns exactly 3 results in ascending distance
order. -/
theorem C7_k_clamping :
    (∀ (ix : FlatL2) (q : Vec) (k : Nat),
      (ix.search q k).length = min k ix.ntotal ∧
      ix.search q (min k ix.ntotal) = ix.search q k ∧
      List.Sorted FlatL2.distLE (ix.search q k)) ∧
    FlatL2.search ⟨2, [[0], [3], [1]]⟩ [0] 30 = [(0, 0), (2, 1), (1, 9)] ∧
    (FlatL2.search ⟨2, [[0], [3], [1]]⟩ [0] 30).length = 3 := by
  refine ⟨?_, by decide, by decide⟩
  intro ix q k
  have hlen : (List.insertionSort FlatL2.distLE
      (ix.vecs.enum.map (fun p => (p.1, sqL2 q p.2)))).length = ix.ntotal := by
    rw [(List.perm_insertionSort FlatL2.distLE _).length_eq, List.length_map,
      List.enum_length]
    rfl
  refine ⟨?_, ?_, ?_⟩
  · rw [FlatL2.search, List.length_take, hlen]
  · rw [FlatL2.search, FlatL2.search, List.take_eq_take]
    rw [hlen]
    omega
  · exact List.Pairwise.sublist (List.take_sublist _ _)
      (List.sorted_insertionSort FlatL2.distLE _)

theorem sumTokens_append (ctok : String → Nat) (res : List SearchHit)
    (c : SearchHit) :
    sumTokens ctok (res ++ [c]) = sumTokens ctok res + (ctok c.meta.content : Int) := by
  simp [sumTokens]

theorem add_chunks_upto_invariant (ctok : String → Nat) (avail : Int)
    (l : List SearchHit) (res : List SearchHit) (tot : Int)
    (hle : tot ≤ avail) (hsum : tot = sumTokens ctok res) :
    (CodeChat.add_chunks_upto ctok avail l (res, tot)).2 ≤ avail ∧
    (CodeChat.add_chunks_upto ctok avail l (res, tot)).2
      = sumTokens ctok (CodeChat.add_chunks_upto ctok avail l (res, tot)).1 := by
  induction l generalizing res tot with
  | nil => exact ⟨hle, hsum⟩
  | cons c cs ih =>
    rw [CodeChat.add_chunks_upto]
    split
    · rename_i hcond
      exact ih _ _ hcond (by rw [sumTokens_append, hsum])
    · exact ⟨hle, hsum⟩

theorem fold_groups_invariant (ctok : String → Nat) (avail : Int)
    (groups : List (String × List SearchHit)) (acc : List SearchHit × Int)
    (hle : acc.2 ≤ avail) (hsum : acc.2 = sumTokens ctok acc.1) :
    (groups.foldl (fun a g =>
      CodeChat.add_chunks_upto ctok avail (List.insertionSort CodeChat.slLE g.2) a)
      acc).2 ≤ avail ∧
    (groups.foldl (fun a g =>
      CodeChat.add_chunks_upto ctok avail (List.insertionSort CodeChat.slLE g.2) a)
      acc).2
      = sumTokens ctok ((groups.foldl (fun a g =>
        CodeChat.add_chunks_upto ctok avail (List.insertionSort CodeChat.slLE g.2) a)
        acc).1) := by
  induction groups generalizing acc with
  | nil => exact ⟨hle, hsum⟩
  | cons g gs ih =>
    rw [List.foldl_cons]
    obtain ⟨h1, h2⟩ :=
      add_chunks_upto_invariant ctok avail (List.insertionSort CodeChat.slLE g.2)
        acc.1 acc.2 hle hsum
    exact ih _ h1 h2

/-- C4: retrieval never exceeds the available token budget — for every run of
`search_similar` that returns a result list, the total of the token counts of
the returned chunks is at most `available_tokens` (whenever that budget is
nonnegative); concretely, with an available budget of exactly 100 and three
40-token chunks of the same file, exactly the first two chunks are returned,
in position order; and a chunk that would overflow inside one file group
stops only that group — a later file group's fitting chunk is still
returned. -/
theorem C4_token_budget :
    (∀ (ctok : String → Nat) (embed : String → Option Vec) (st : IngesterState)
        (query : String) (initial_k : Nat) (res : List SearchHit),
      (CodeChat.search_similar ctok embed st query initial_k).1 = some res →
      0 ≤ CodeChat.available_tokens ctok query →
      sumTokens ctok res ≤ CodeChat.available_tokens ctok query) ∧
    CodeChat.search_similar C4ctok C4embed C4st "q" 30
      = (some [⟨C4m0, 0⟩, ⟨C4m1, 1⟩], 1) ∧
    CodeChat.search_similar C4ctok C4embed C4st2 "q" 30
      = (some [⟨C4a1, 0⟩, ⟨C4b1, 4⟩], 1) := by
  refine ⟨?_, by decide, by decide⟩
  intro ctok embed st query initial_k res hres havail
  unfold CodeChat.search_similar at hres
  split at hres
  · simp only [Option.some.injEq] at hres
    subst hres
    simpa [sumTokens] using havail
  · split at hres
    · simp at hres
    · simp only [Option.some.injEq] at hres
      obtain ⟨h1, h2⟩ := fold_groups_invariant ctok
        (CodeChat.available_tokens ctok query) _ ([], 0) havail (by simp [sumTokens])
      rw [← hres, ← h2]
      exact h1

/-- C4 witness: the concrete 100-token-budget scenario instantiates the
budget bound. -/
theorem C4_token_budget_witness :
    (CodeChat.search_similar C4ctok C4embed C4st "q" 30).1
      = some [⟨C4m0, 0⟩, ⟨C4m1, 1⟩] ∧
    0 ≤ CodeChat.available_tokens C4ctok "q" ∧
    sumTokens C4ctok [⟨C4m0, 0⟩, ⟨C4m1, 1⟩]
      ≤ CodeChat.available_tokens C4ctok "q" :=
  ⟨by decide, by decide,
   C4_token_budget.1 C4ctok C4embed C4st "q" 30 [⟨C4m0, 0⟩, ⟨C4m1, 1⟩]
     (by decide) (by decide)⟩

theorem add_chunks_upto_mem (ctok : String → Nat) (avail : Int)
    (l : List SearchHit) (res : List SearchHit) (tot : Int) (c : SearchHit)
    (h : c ∈ (CodeChat.add_chunks_upto ctok avail l (res, tot)).1) :
    c ∈ res ∨ c ∈ l := by
  induction l generalizing res tot with
  | nil => exact Or.inl h
  | cons x xs ih =>
    rw [CodeChat.add_chunks_upto] at h
    split at h
    · rcases ih _ _ h with h' | h'
      · rcases List.mem_append.mp h' with h'' | h''
        · exact Or.inl h''
        · exact Or.inr (List.mem_singleton.mp h'' ▸ List.mem_cons_self x xs)
      · exact Or.inr (List.mem_cons_of_mem _ h')
    · exact Or.inl h

theorem fold_groups_mem (ctok : String → Nat) (avail : Int)
    (groups : List (String × List SearchHit)) (acc : List SearchHit × Int)
    (c : SearchHit)
    (h : c ∈ (groups.foldl (fun a g =>
      CodeChat.add_chunks_upto ctok avail (List.insertionSort CodeChat.slLE g.2) a)
      acc).1) :
    c ∈ acc.1 ∨ ∃ g ∈ groups, c ∈ g.2 := by
  induction groups generalizing acc with
  | nil => exact Or.inl h
  | cons g gs ih =>
    rw [List.foldl_cons] at h
    rcases ih _ h with h' | h'
    · obtain ⟨res, tot⟩ := acc
      rcases add_chunks_upto_mem ctok avail _ res tot c h' with h'' | h''
      · exact Or.inl h''
      · exact Or.inr ⟨g, List.mem_cons_self _ _,
          ((List.perm_insertionSort CodeChat.slLE g.2).mem_iff).mp h''⟩
    · obtain ⟨g', hg', hc⟩ := h'
      exact Or.inr ⟨g', List.mem_cons_of_mem _ hg', hc⟩

theorem group_fold_mem (P : SearchHit → Prop) (l : List SearchHit) :
    ∀ (acc : List (String × List SearchHit)),
      (∀ g ∈ acc, ∀ c ∈ g.2, P c) → (∀ x ∈ l, P x) →
      ∀ g ∈ l.foldl (fun acc r =>
        if acc.any (fun g => g.1 = r.meta.file) then
          acc.map (fun g => if g.1 = r.meta.file then (g.1, g.2 ++ [r]) else g)
        else acc ++ [(r.meta.file, [r])]) acc, ∀ c ∈ g.2, P c := by
  induction l with
  | nil =>
    intro acc hacc _ g hg c hc
    exact hacc g hg c hc
  | cons r rs ih =>
    intro acc hacc hl g hg c hc
    rw [List.foldl_cons] at hg
    refine ih _ ?_ (fun x hx => hl x (List.mem_cons_of_mem _ hx)) g hg c hc
    intro g' hg' c' hc'
    by_cases hany : (acc.any (fun g => decide (g.1 = r.meta.file))) = true
    · rw [if_pos hany] at hg'
      obtain ⟨g₀, hg₀, rfl⟩ := List.mem_map.mp hg'
      by_cases hf : g₀.1 = r.meta.file
      · rw [if_pos hf] at hc'
        rcases List.mem_append.mp hc' with hmem | hmem
        · exact hacc g₀ hg₀ c' hmem
        · exact List.mem_singleton.mp hmem ▸ hl r (List.mem_cons_self r rs)
      · rw [if_neg hf] at hc'
        exact hacc g₀ hg₀ c' hc'
    · rw [if_neg hany] at hg'
      rcases List.mem_append.mp hg' with hmem | hmem
      · exact hacc g' hmem c' hc'
      · rw [List.mem_singleton.mp hmem] at hc'
        exact List.mem_singleton.mp hc' ▸ hl r (List.mem_cons_self r rs)

theorem group_by_file_mem (hits : List SearchHit) (g : String × List SearchHit)
    (hg : g ∈ CodeChat.group_by_file hits) (c : SearchHit) (hc : c ∈ g.2) :
    c ∈ hits := by
  rw [CodeChat.group_by_file] at hg
  exact group_fold_mem (fun x => x ∈ hits) hits [] (by simp) (fun x hx => hx) g hg c hc

theorem mem_filterMap_hits (st : IngesterState) (di : List (Nat × ℤ))
    (c : SearchHit)
    (h : c ∈ di.filterMap fun p =>
      (st.metadata.get? p.1).map fun m => { meta := m, distance := p.2 }) :
    ∃ i, ∃ hi : i < st.metadata.length, c.meta = st.metadata.get ⟨i, hi⟩ := by
  obtain ⟨p, _, hp⟩ := List.mem_filterMap.mp h
  obtain ⟨m, hm, hc⟩ := Option.map_eq_some'.mp hp
  obtain ⟨hi, hget⟩ := List.get?_eq_some.mp hm
  exact ⟨p.1, hi, by rw [← hc, hget]⟩

/-- C10: retrieval is total on a state whose metadata list is shorter than
the vector index — every search hit whose position is out of range for the
metadata list is silently dropped, so every returned chunk's metadata comes
from an in-range metadata position; concretely, a state with 3 vectors but
1 metadata entry yields exactly the one in-range result rather than a
failure. -/
theorem C10_out_of_range_dropped :
    (∀ (ctok : String → Nat) (embed : String → Option Vec) (st : IngesterState)
        (query : String) (initial_k : Nat) (res : List SearchHit) (c : SearchHit),
      (CodeChat.search_similar ctok embed st query initial_k).1 = some res →
      c ∈ res →
      ∃ i, ∃ hi : i < st.metadata.length, c.meta = st.metadata.get ⟨i, hi⟩) ∧
    C10st.index.ntotal = 3 ∧ C10st.metadata.length = 1 ∧
    CodeChat.search_similar (fun _ => 0) C10embed C10st "q" 30
      = (some [⟨C10meta, 25⟩], 1) := by
  refine ⟨?_, by decide, by decide, by decide⟩
  intro ctok embed st query initial_k res c hres hc
  unfold CodeChat.search_similar at hres
  split at hres
  · simp only [Option.some.injEq] at hres
    rw [← hres] at hc
    exact absurd hc (List.not_mem_nil c)
  · split at hres
    · simp at hres
    · simp only [Option.some.injEq] at hres
      rw [← hres] at hc
      rcases fold_groups_mem _ _ _ _ _ hc with h' | h'
      · exact absurd h' (List.not_mem_nil c)
      · obtain ⟨g, hg, hcg⟩ := h'
        exact mem_filterMap_hits st _ c (group_by_file_mem _ g hg c hcg)

/-- C10 witness: the mismatched 3-vector/1-metadata state instantiates the
in-range-origin property for its returned chunk. -/
theorem C10_out_of_range_dropped_witness :
    (CodeChat.search_similar (fun _ => 0) C10embed C10st "q" 30).1
      = some [⟨C10meta, 25⟩] ∧
    (⟨C10meta, 25⟩ : SearchHit) ∈ [(⟨C10meta, 25⟩ : SearchHit)] ∧
    ∃ i, ∃ hi : i < C10st.metadata.length,
      (⟨C10meta, 25⟩ : SearchHit).meta = C10st.metadata.get ⟨i, hi⟩ :=
  ⟨by decide, by decide,
   C10_out_of_range_dropped.1 (fun _ => 0) C10embed C10st "q" 30
     [⟨C10meta, 25⟩] ⟨C10meta, 25⟩ (by decide) (by decide)⟩

theorem fcb_parts_join (tok : String → Nat) (markers : List String)
    (max_tokens : Nat) (l : List String) :
    ∀ (cur : List String) (tks : Nat),
      (SmartChunker.fcb_parts tok markers max_tokens l cur tks).flatten = cur ++ l := by
  induction l with
  | nil =>
    intro cur tks
    rw [SmartChunker.fcb_parts]
    split
    · rename_i h
      simp [h]
    · simp
  | cons line rest ih =>
    intro cur tks
    rw [SmartChunker.fcb_parts]
    split
    · simp [ih]
    · simp [ih]

theorem fcb_parts_ne_nil (tok : String → Nat) (markers : List String)
    (max_tokens : Nat) (l : List String) :
    ∀ (cur : List String) (tks : Nat) (p : List String),
      p ∈ SmartChunker.fcb_parts tok markers max_tokens l cur tks → p ≠ [] := by
  induction l with
  | nil =>
    intro cur tks p hp
    rw [SmartChunker.fcb_parts] at hp
    split at hp
    · simp at hp
    · rename_i h
      rw [List.mem_singleton.mp hp]
      exact h
  | cons line rest ih =>
    intro cur tks p hp
    rw [SmartChunker.fcb_parts] at hp
    split at hp
    · rename_i hcond
      rcases List.mem_cons.mp hp with rfl | hmem
      · intro hnil
        rw [hnil] at hcond
        simp at hcond
      · exact ih _ _ _ hmem
    · exact ih _ _ _ hp

theorem fcb_loop_eq_parts (tok : String → Nat) (markers : List String)
    (max_tokens : Nat) (l : List String) :
    ∀ (chunks : List SChunk) (cur : List String) (tks : Nat),
      SmartChunker.fcb_loop tok markers max_tokens l chunks cur tks
        = chunks ++ (SmartChunker.fcb_parts tok markers max_tokens l cur tks).map
            (SmartChunker.mkChunk tok) := by
  induction l with
  | nil =>
    intro chunks cur tks
    rw [SmartChunker.fcb_loop, SmartChunker.fcb_parts]
    by_cases h : cur = []
    · simp [SmartChunker.create_chunk, h]
    · simp [SmartChunker.create_chunk, h, SmartChunker.mkChunk]
  | cons line rest ih =>
    intro chunks cur tks
    rw [SmartChunker.fcb_loop, SmartChunker.fcb_parts]
    simp only []
    split
    · rename_i hcond
      have hne : cur ≠ [] := by
        intro h
        rw [h] at hcond
        simp at hcond
      rw [ih]
      simp [SmartChunker.create_chunk, hne, SmartChunker.mkChunk]
    · exact ih _ _ _

theorem lineTokSum_single_case (tok : String → Nat) (max_tokens : Nat)
    (cur : List String) (tks : Nat)
    (hsum : tks = SmartChunker.lineTokSum tok cur)
    (hinv : cur.length ≤ 1 ∨ tks ≤ max_tokens) :
    SmartChunker.lineTokSum tok cur ≤ max_tokens ∨
      ∃ hd tl, cur = hd :: tl ∧ max_tokens < tok (hd ++ "\n") := by
  rcases hinv with hlen | hle
  · cases cur with
    | nil =>
      left
      simp [SmartChunker.lineTokSum]
    | cons x xs =>
      have hxs : xs = [] := by
        cases xs with
        | nil => rfl
        | cons y ys => simp at hlen
      subst hxs
      by_cases hx : tok (x ++ "\n") ≤ max_tokens
      · left
        simpa [SmartChunker.lineTokSum] using hx
      · right
        exact ⟨x, [], rfl, Nat.lt_of_not_le hx⟩
  · left
    rw [← hsum]
    exact hle

theorem fcb_parts_tokens (tok : String → Nat) (markers : List String)
    (max_tokens : Nat) (l : List String) :
    ∀ (cur : List String) (tks : Nat),
      tks = SmartChunker.lineTokSum tok cur →
      (cur.length ≤ 1 ∨ tks ≤ max_tokens) →
      ∀ p ∈ SmartChunker.fcb_parts tok markers max_tokens l cur tks,
        SmartChunker.lineTokSum tok p ≤ max_tokens ∨
          ∃ hd tl, p = hd :: tl ∧ max_tokens < tok (hd ++ "\n") := by
  induction l with
  | nil =>
    intro cur tks hsum hinv p hp
    rw [SmartChunker.fcb_parts] at hp
    split at hp
    · simp at hp
    · rw [List.mem_singleton.mp hp]
      exact lineTokSum_single_case tok max_tokens cur tks hsum hinv
  | cons line rest ih =>
    intro cur tks hsum hinv p hp
    rw [SmartChunker.fcb_parts] at hp
    split at hp
    · rcases List.mem_cons.mp hp with rfl | hmem
      · exact lineTokSum_single_case tok max_tokens p tks hsum hinv
      · refine ih [line] (tok (line ++ "\n")) ?_ ?_ p hmem
        · simp [SmartChunker.lineTokSum]
        · left
          simp
    · rename_i hcond
      refine ih (cur ++ [line]) (tks + tok (line ++ "\n")) ?_ ?_ p hp
      · rw [hsum]
        simp [SmartChunker.lineTokSum]
      · by_cases hc : cur = []
        · left
          simp [hc]
        · right
          by_cases hm : max_tokens < tks + tok (line ++ "\n")
          · exfalso
            apply hcond
            have hcur : cur.isEmpty = false := by
              simpa [List.isEmpty_iff] using hc
            simp [hcur, hm]
          · exact Nat.le_of_not_lt hm

theorem string_intercalate_go_append (s : String) (t : List String) :
    ∀ (x y : String),
      String.intercalate.go (x ++ y) s t = x ++ String.intercalate.go y s t := by
  induction t with
  | nil =>
    intro x y
    rfl
  | cons a t ih =>
    intro x y
    show String.intercalate.go (x ++ y ++ s ++ a) s t
      = x ++ String.intercalate.go (y ++ s ++ a) s t
    have hgo := ih x (y ++ s ++ a)
    rw [← String.append_assoc, ← String.append_assoc] at hgo
    exact hgo

theorem string_intercalate_cons_cons (s a b : String) (t : List String) :
    String.intercalate s (a :: b :: t) = a ++ s ++ String.intercalate s (b :: t) := by
  show String.intercalate.go (a ++ s ++ b) s t = a ++ s ++ String.intercalate.go b s t
  exact string_intercalate_go_append s t (a ++ s) b

theorem string_intercalate_append (s : String) (a : List String) :
    ∀ (b : List String), a ≠ [] → b ≠ [] →
      String.intercalate s (a ++ b)
        = String.intercalate s a ++ s ++ String.intercalate s b := by
  induction a with
  | nil =>
    intro b h _
    exact absurd rfl h
  | cons x a ih =>
    intro b _ hb
    cases a with
    | nil =>
      cases b with
      | nil => exact absurd rfl hb
      | cons y t =>
        rw [List.singleton_append, string_intercalate_cons_cons]
        rfl
    | cons z a' =>
      have ihb := ih b (by simp) hb
      rw [List.cons_append] at ihb
      rw [List.cons_append, List.cons_append, string_intercalate_cons_cons, ihb,
        string_intercalate_cons_cons]
      simp [String.append_assoc]

theorem string_intercalate_parts (parts : List (List String))
    (h : ∀ p ∈ parts, p ≠ []) :
    String.intercalate "\n" (parts.map (String.intercalate "\n"))
      = String.intercalate "\n" parts.flatten := by
  induction parts with
  | nil => rfl
  | cons p ps ih =>
    cases ps with
    | nil =>
      show String.intercalate "\n" [String.intercalate "\n" p]
        = String.intercalate "\n" ([p].flatten)
      rw [show ([p] : List (List String)).flatten = p by simp]
      rfl
    | cons q qs =>
      have ih' := ih (fun r hr => h r (List.mem_cons_of_mem _ hr))
      rw [List.map_cons] at ih'
      have hq : (q :: qs).flatten ≠ [] := by
        have hqn : q ≠ [] := h q (by simp)
        rw [List.flatten_cons]
        intro hcontra
        exact hqn (List.append_eq_nil.mp hcontra).1
      rw [List.map_cons, List.map_cons, string_intercalate_cons_cons, ih']
      conv_rhs => rw [List.flatten_cons]
      rw [string_intercalate_append "\n" p ((q :: qs).flatten) (h p (by simp)) hq]

theorem list_intercalate_cons_cons {α : Type} (s a b : List α) (t : List (List α)) :
    List.intercalate s (a :: b :: t) = a ++ s ++ List.intercalate s (b :: t) := by
  simp [List.intercalate, List.append_assoc]

theorem string_intercalate_mk_map (ls : List (List Char)) :
    String.intercalate "\n" (ls.map String.mk)
      = String.mk (List.intercalate ['\n'] ls) := by
  induction ls with
  | nil => rfl
  | cons a ls ih =>
    cases ls with
    | nil =>
      show String.mk a = String.mk (List.intercalate ['\n'] [a])
      rw [show List.intercalate ['\n'] [a] = a by simp [List.intercalate]]
    | cons b t =>
      have ih' := ih
      rw [List.map_cons] at ih'
      rw [List.map_cons, List.map_cons, string_intercalate_cons_cons, ih',
        list_intercalate_cons_cons]
      rfl

theorem string_intercalate_pySplitLines (s : String) :
    String.intercalate "\n" (pySplitLines s) = s := by
  rw [pySplitLines, string_intercalate_mk_map, List.intercalate_splitOn]
  cases s
  rfl

/-- C5: chunking round-trip — for every file content and extension, joining
the chunks emitted by `SmartChunker._find_chunk_boundaries` in emission
order with newlines reproduces the original content exactly: the emitted
chunks partition the content's lines with no gaps and no overlaps. -/
theorem C5_chunk_round_trip (tok : String → Nat) (max_tokens : Nat)
    (content : String) (file_ext : String) :
    String.intercalate "\n"
      ((SmartChunker.find_chunk_boundaries tok max_tokens content file_ext).map
        SChunk.content) = content := by
  rw [SmartChunker.find_chunk_boundaries, fcb_loop_eq_parts]
  rw [List.nil_append, List.map_map]
  have hmap : (SChunk.content ∘ SmartChunker.mkChunk tok)
      = String.intercalate "\n" := by
    funext p
    rfl
  rw [hmap]
  rw [string_intercalate_parts _
    (fun p hp => fcb_parts_ne_nil tok (SmartChunker.language_markers file_ext)
      max_tokens (pySplitLines content) [] 0 p hp)]
  rw [fcb_parts_join, List.nil_append]
  exact string_intercalate_pySplitLines content

/-- C9: a line whose token count exceeds the configured maximum is still
emitted intact, as an accepted overflow.  The chunker's emitted chunks are
exactly the joins of a partition of the input lines (so no line is ever
split mid-line and every over-long line appears intact in some chunk), the
partition concatenates back to the input lines, and every part either has
accumulated token count (the loop's per-line account) at most `max_tokens`
or begins with a single line whose own token count exceeds `max_tokens`. -/
theorem C9_long_line_overflow (tok : String → Nat) (max_tokens : Nat)
    (content : String) (file_ext : String) (p : List String)
    (hp : p ∈ SmartChunker.fcb_parts tok (SmartChunker.language_markers file_ext)
      max_tokens (pySplitLines content) [] 0) :
    (SmartChunker.find_chunk_boundaries tok max_tokens content file_ext
        = (SmartChunker.fcb_parts tok (SmartChunker.language_markers file_ext)
            max_tokens (pySplitLines content) [] 0).map (SmartChunker.mkChunk tok)) ∧
    (SmartChunker.fcb_parts tok (SmartChunker.language_markers file_ext)
        max_tokens (pySplitLines content) [] 0).flatten = pySplitLines content ∧
    (SmartChunker.lineTokSum tok p ≤ max_tokens ∨
      ∃ hd tl, p = hd :: tl ∧ max_tokens < tok (hd ++ "\n")) := by
  refine ⟨?_, ?_, ?_⟩
  · rw [SmartChunker.find_chunk_boundaries, fcb_loop_eq_parts, List.nil_append]
  · rw [fcb_parts_join, List.nil_append]
  · exact fcb_parts_tokens tok (SmartChunker.language_markers file_ext)
      max_tokens (pySplitLines content) [] 0 (by simp [SmartChunker.lineTokSum])
      (Or.inl (by simp)) p hp

/-- C9 witness: with a one-token-per-character counter and a maximum of 1, the
single line "xx" (3 tokens counting its newline) is emitted intact as the one
chunk part, satisfying the overflow disjunction. -/
theorem C9_long_line_overflow_witness :
    (["xx"] ∈ SmartChunker.fcb_parts String.length
      (SmartChunker.language_markers ".py") 1 (pySplitLines "xx") [] 0) ∧
    ((SmartChunker.find_chunk_boundaries String.length 1 "xx" ".py"
        = (SmartChunker.fcb_parts String.length
            (SmartChunker.language_markers ".py") 1
            (pySplitLines "xx") [] 0).map (SmartChunker.mkChunk String.length)) ∧
    (SmartChunker.fcb_parts String.length (SmartChunker.language_markers ".py") 1
        (pySplitLines "xx") [] 0).flatten = pySplitLines "xx" ∧
    (SmartChunker.lineTokSum String.length ["xx"] ≤ 1 ∨
      ∃ hd tl, ["xx"] = hd :: tl ∧ 1 < String.length (hd ++ "\n"))) :=
  ⟨by decide, C9_long_line_overflow String.length 1 "xx" ".py" ["xx"] (by decide)⟩
